import Mathlib

/-!
Verification of the incremental synchronization engine of the
panopto-index-connector repository (src/panoptoindexconnector/connector.py).

The connector's pure control flow is embedded shallowly:

* Python strings are lists of characters (`PyStr`).
* `datetime` values are the `DateTime` structure; `DateTime.isoformat`,
  `fromisoformat` and `strptimeYmdHms` model the corresponding stdlib
  calls on the textual forms the connector produces and consumes.
* The checkpoint file is the optional list of its lines; `get_last_update_time`
  and `save_last_update_time` embed the functions of the same names.
* External effects (token acquisition, the updates endpoint, per-item
  synchronization through `sync_video_by_id`) are deterministic oracles
  collected in `SyncEnv`; `sync` and `runTrace` embed the `sync` function
  and the persistence loop of `run`.  An `Except.error` escaping `sync`
  models a Python exception that the function does not catch.
-/

set_option maxRecDepth 16000

deriving instance DecidableEq for Except

namespace PanoptoConnector

/-- Python strings are modelled as lists of characters. -/
abbrev PyStr := List Char

/-- Test for an ASCII decimal digit. -/
def isDig (c : Char) : Bool := 48 ≤ c.toNat && c.toNat ≤ 57

/-- Numeric value of an ASCII digit character. -/
def charVal (c : Char) : Nat := c.toNat - 48

/-- The ASCII digit character of n mod 10. -/
def digitChar (n : Nat) : Char := Char.ofNat (48 + n % 10)

/-- Zero-padded fixed-width decimal rendering (Python's %04d, %02d, %06d),
most significant digit first; the value is taken mod 10 ^ width. -/
def toPadded : Nat → Nat → PyStr
  | 0, _ => []
  | w + 1, n => toPadded w (n / 10) ++ [digitChar n]

/-- Split off exactly w characters from the front, failing when the input
is shorter than w. -/
def splitAtN : Nat → PyStr → Option (PyStr × PyStr)
  | 0, cs => some ([], cs)
  | _ + 1, [] => none
  | w + 1, c :: cs =>
    match splitAtN w cs with
    | some (xs, rest) => some (c :: xs, rest)
    | none => none

/-- Decimal value of a digit string, most significant digit first. -/
def digitsVal (cs : PyStr) : Nat := cs.foldl (fun a c => a * 10 + charVal c) 0

/-- Read exactly w decimal digits from the front of the input. -/
def readFixed (w : Nat) (cs : PyStr) : Option (Nat × PyStr) :=
  match splitAtN w cs with
  | some (xs, rest) => if xs.all isDig then some (digitsVal xs, rest) else none
  | none => none

/-- Consume one expected literal character. -/
def expectChar (c : Char) : PyStr → Option PyStr
  | [] => none
  | x :: xs => if x = c then some xs else none

/-- The whitespace set stripped by Python's str.strip(). -/
def isPySpace (c : Char) : Bool :=
  c == ' ' || c == '\t' || c == '\n' || c == '\r' || c == Char.ofNat 11 || c == Char.ofNat 12

/-- Python str.strip(): drop whitespace from both ends. -/
def pyStrip (cs : PyStr) : PyStr :=
  ((cs.dropWhile isPySpace).reverse.dropWhile isPySpace).reverse

/-- Python s.split('.')[0]: the prefix of s before the first dot
(the whole string when s has no dot). -/
def splitDotHead (cs : PyStr) : PyStr := cs.takeWhile (fun c => c != '.')

/-- Python datetime.datetime values, to microsecond resolution. -/
structure DateTime where
  year : Nat
  month : Nat
  day : Nat
  hour : Nat
  minute : Nat
  second : Nat
  microsecond : Nat
deriving DecidableEq

/-- The field ranges enforced by the datetime constructor (day bounded by 31,
which is all the textual round trip needs). -/
abbrev dtValid (d : DateTime) : Prop :=
  1 ≤ d.year ∧ d.year ≤ 9999 ∧ 1 ≤ d.month ∧ d.month ≤ 12 ∧ 1 ≤ d.day ∧ d.day ≤ 31 ∧
    d.hour ≤ 23 ∧ d.minute ≤ 59 ∧ d.second ≤ 59 ∧ d.microsecond ≤ 999999

/-- Boolean form of `dtValid`, used inside the parsers. -/
def dtValidb (d : DateTime) : Bool := decide (dtValid d)

/-- Mixed-radix linearization of a DateTime; on valid values it agrees with
Python's field-lexicographic order on datetime. -/
def DateTime.key (d : DateTime) : Nat :=
  d.microsecond +
    1000000 * (d.second + 60 * (d.minute + 60 * (d.hour + 24 * (d.day + 32 * (d.month + 13 * d.year)))))

/-- Chronological order on DateTime values. -/
def dtle (a b : DateTime) : Prop := a.key ≤ b.key

instance : DecidableRel dtle := fun a b => Nat.decLe a.key b.key

instance : IsTrans DateTime dtle := ⟨fun _ _ _ hab hbc => Nat.le_trans hab hbc⟩

/-- The 19-character "YYYY-MM-DDTHH:MM:SS" prefix of datetime.isoformat(). -/
def DateTime.isoBase (d : DateTime) : PyStr :=
  toPadded 4 d.year ++ '-' :: toPadded 2 d.month ++ '-' :: toPadded 2 d.day ++
    'T' :: toPadded 2 d.hour ++ ':' :: toPadded 2 d.minute ++ ':' :: toPadded 2 d.second

/-- Python's datetime.isoformat(): the base form, with a dot and six
fractional digits appended exactly when the microsecond field is nonzero. -/
def DateTime.isoformat (d : DateTime) : PyStr :=
  d.isoBase ++ (if d.microsecond = 0 then [] else '.' :: toPadded 6 d.microsecond)

/-- Parse the "YYYY-MM-DD" date prefix, returning the remainder. -/
def parseDatePart (cs : PyStr) : Option (Nat × Nat × Nat × PyStr) :=
  match readFixed 4 cs with
  | none => none
  | some (y, cs1) =>
    match expectChar '-' cs1 with
    | none => none
    | some cs2 =>
      match readFixed 2 cs2 with
      | none => none
      | some (mo, cs3) =>
        match expectChar '-' cs3 with
        | none => none
        | some cs4 =>
          match readFixed 2 cs4 with
          | none => none
          | some (dd, cs5) => some (y, mo, dd, cs5)

/-- Parse the "HH:MM:SS" time form, returning the remainder. -/
def parseTimePart (cs : PyStr) : Option (Nat × Nat × Nat × PyStr) :=
  match readFixed 2 cs with
  | none => none
  | some (h, cs1) =>
    match expectChar ':' cs1 with
    | none => none
    | some cs2 =>
      match readFixed 2 cs2 with
      | none => none
      | some (mi, cs3) =>
        match expectChar ':' cs3 with
        | none => none
        | some cs4 =>
          match readFixed 2 cs4 with
          | none => none
          | some (s, cs5) => some (h, mi, s, cs5)

/-- Parse the optional fractional-second suffix of an ISO timestamp:
empty means no fraction, otherwise a dot followed by exactly six or exactly
three digits (the forms accepted by fromisoformat before Python 3.11). -/
def parseFrac : PyStr → Option Nat
  | [] => some 0
  | '.' :: f =>
    match readFixed 6 f with
    | some (v, []) => some v
    | _ =>
      match readFixed 3 f with
      | some (v, []) => some (v * 1000)
      | _ => none
  | _ => none

/-- Models datetime.strptime(s, %Y-%m-%dT%H:%M:%S) on the canonical
zero-padded form: the whole input must be consumed, there is no
fractional part, and the parsed fields must be constructor-valid.
The resulting datetime has microsecond 0. -/
def strptimeYmdHms (cs : PyStr) : Option DateTime :=
  match parseDatePart cs with
  | none => none
  | some (y, mo, dd, rest) =>
    match expectChar 'T' rest with
    | none => none
    | some rest1 =>
      match parseTimePart rest1 with
      | none => none
      | some (h, mi, s, rest2) =>
        match rest2 with
        | [] =>
          if dtValidb ⟨y, mo, dd, h, mi, s, 0⟩ then some ⟨y, mo, dd, h, mi, s, 0⟩ else none
        | _ :: _ => none

/-- Models datetime.fromisoformat (CPython 3.7 through 3.10) on the forms
the connector writes: a strict date, then optionally one separator
character, an "HH:MM:SS" time and an optional fractional part.  Returns
none where the Python call raises ValueError. -/
def fromisoformat (cs : PyStr) : Option DateTime :=
  match parseDatePart cs with
  | none => none
  | some (y, mo, dd, rest) =>
    match rest with
    | [] => if dtValidb ⟨y, mo, dd, 0, 0, 0, 0⟩ then some ⟨y, mo, dd, 0, 0, 0, 0⟩ else none
    | _sep :: rest1 =>
      match parseTimePart rest1 with
      | none => none
      | some (h, mi, s, rest2) =>
        match parseFrac rest2 with
        | none => none
        | some mu =>
          if dtValidb ⟨y, mo, dd, h, mi, s, mu⟩ then some ⟨y, mo, dd, h, mi, s, mu⟩ else none

/-- Lines 202 to 204 of connector.py: discard everything from the first dot
of the UpdateTime string, then parse with strptime's %Y-%m-%dT%H:%M:%S. -/
def parseUpdateTime (s : PyStr) : Option DateTime := strptimeYmdHms (splitDotHead s)

/-- Failure values, standing for Python exceptions. -/
structure Exc where
  msg : PyStr
deriving DecidableEq

/-- The far-past default watermark datetime(2008, 1, 1) of
get_last_update_time. -/
def dt2008 : DateTime := ⟨2008, 1, 1, 0, 0, 0, 0⟩

/-- connector.py get_last_update_time.  The tracking file is the optional
list of its lines: none when the file does not exist, otherwise the lines
readlines() would return (without terminators).  A present, non-empty file
has its last line stripped and given to fromisoformat; a failed parse is
the raised ValueError. -/
def get_last_update_time (file : Option (List PyStr)) : Except Exc DateTime :=
  match file with
  | none => .ok dt2008
  | some lines =>
    match lines.getLast? with
    | none => .ok dt2008
    | some line =>
      match fromisoformat (pyStrip line) with
      | some d => .ok d
      | none => .error ⟨"ValueError".data⟩

/-- connector.py save_last_update_time: append isoformat() plus a line
terminator, that is, one further line at the end of the file. -/
def save_last_update_time (last_update_time : DateTime) (file : List PyStr) : List PyStr :=
  file ++ [last_update_time.isoformat]

/-- One update record of the change-list response: the VideoId and the raw
UpdateTime string. -/
structure Update where
  videoId : PyStr
  updateTime : PyStr
deriving DecidableEq

/-- One page of the change-list response: the Updates array and the
NextToken (none models null). -/
structure Page where
  updates : List Update
  nextToken : Option PyStr
deriving DecidableEq

/-- The deterministic environment of one pass of sync:
  * authResult: outcome of get_oauth_token (raised error or token);
  * pages: outcome of the k-th get_ids_to_update call of the pass
    (the connector's next_token round trip is absorbed into the index);
  * itemResult: outcome of the k-th sync_video_by_id call of the pass;
  * startTime: the datetime.utcnow() captured at the start of the pass. -/
structure SyncEnv where
  authResult : Except Exc PyStr
  pages : List (Except Exc Page)
  itemResult : Nat → Except Exc Unit
  startTime : DateTime

/-- The k-th enumeration call's outcome; past the end of the oracle the
call fails, like any other transport error. -/
def pageAt (env : SyncEnv) (k : Nat) : Except Exc Page :=
  (env.pages.get? k).getD (.error ⟨"no response".data⟩)

/-- Result of the inner per-page loop of sync: the candidate watermark,
the running item counter, the VideoIds synchronized (in order), and the
caught exception, if one was raised. -/
structure PageOut where
  wm : DateTime
  idx : Nat
  synced : List PyStr
  exc : Option Exc
deriving DecidableEq

/-- Lines 198 to 208 of connector.py: for each update in page order, parse
the UpdateTime (a failure is the raised ValueError), call
sync_video_by_id, and only then advance new_last_update_time to the
record's parsed time.  A failure aborts the remaining records. -/
def applyUpdates (env : SyncEnv) : List Update → Nat → DateTime → PageOut
  | [], idx, wm => ⟨wm, idx, [], none⟩
  | u :: us, idx, wm =>
    match parseUpdateTime u.updateTime with
    | none => ⟨wm, idx, [], some ⟨"ValueError".data⟩⟩
    | some t =>
      match env.itemResult idx with
      | .error e => ⟨wm, idx, [], some e⟩
      | .ok _ =>
        let r := applyUpdates env us (idx + 1) t
        ⟨r.wm, r.idx, u.videoId :: r.synced, r.exc⟩

/-- Result of the paginated loop of sync: candidate watermark, number of
enumeration calls made, VideoIds synchronized in order, caught exception. -/
structure LoopOut where
  wm : DateTime
  calls : Nat
  synced : List PyStr
  exc : Option Exc
deriving DecidableEq

/-- Lines 196 to 214 of connector.py: for _ in range(1000), request one
page, apply its updates, then follow NextToken; break on a null token;
falling off the end of the range (the for-else warning) is not a failure.
fuel is the number of remaining range iterations, calls the number of
enumeration calls already made. -/
def syncLoop (env : SyncEnv) : Nat → Nat → Nat → DateTime → LoopOut
  | 0, calls, _, wm => ⟨wm, calls, [], none⟩
  | fuel + 1, calls, idx, wm =>
    match pageAt env calls with
    | .error e => ⟨wm, calls + 1, [], some e⟩
    | .ok page =>
      let q := applyUpdates env page.updates idx wm
      match q.exc with
      | some e => ⟨q.wm, calls + 1, q.synced, some e⟩
      | none =>
        match page.nextToken with
        | none => ⟨q.wm, calls + 1, q.synced, none⟩
        | some _ =>
          let r := syncLoop env fuel (calls + 1) q.idx q.wm
          ⟨r.wm, r.calls, q.synced ++ r.synced, r.exc⟩

/-- The pass outcome sync returns to run: the new watermark, the caught
exception (none on a clean pass), plus the observables of the pass. -/
structure SyncOut where
  wm : DateTime
  exc : Option Exc
  calls : Nat
  synced : List PyStr
deriving DecidableEq

/-- Lines 180 to 224 of connector.py.  get_oauth_token is called before
the try block, so its failure escapes sync (the Except.error case);
every failure inside the loop is caught and returned in the outcome.
When no exception was caught, new_last_update_time is overwritten with
start_time before returning. -/
def sync (env : SyncEnv) (last_update_time : DateTime) : Except Exc SyncOut :=
  match env.authResult with
  | .error e => .error e
  | .ok _ =>
    let r := syncLoop env 1000 0 0 last_update_time
    match r.exc with
    | some e => .ok ⟨r.wm, some e, r.calls, r.synced⟩
    | none => .ok ⟨env.startTime, none, r.calls, r.synced⟩

/-- Lines 161 to 177 of connector.py: the run loop persists the watermark
returned by every pass, failed or not, and continues; the trace is the list
of persisted watermark values, one per completed pass.  An exception
escaping sync is uncaught in run, so the process dies and the trace ends
with nothing persisted for that pass. -/
def runTrace (wm : DateTime) : List SyncEnv → List DateTime
  | [] => []
  | env :: rest =>
    match sync env wm with
    | .error _ => []
    | .ok r => r.wm :: runTrace r.wm rest

/-- The records of one enumeration-call outcome (none for an error). -/
def pageRecords : Except Exc Page → List Update
  | .ok p => p.updates
  | .error _ => []

/-- All records held by the oracle's pages from the k-th call onward. -/
def recordsFrom (env : SyncEnv) (k : Nat) : List Update :=
  ((env.pages.drop k).map pageRecords).flatten

/-- Every record the environment can ever enumerate in the pass. -/
def envRecords (env : SyncEnv) : List Update := recordsFrom env 0

/-- The records of the first n pages, those a pass making n enumeration
calls has actually fetched. -/
def fetchedRecords (env : SyncEnv) (n : Nat) : List Update :=
  ((env.pages.take n).map pageRecords).flatten

/-- The parsed change timestamps of a record list, in enumeration order. -/
def passTimes (us : List Update) : List DateTime :=
  us.filterMap (fun u => parseUpdateTime u.updateTime)

/-- A well-behaved pass environment, the background assumptions of the
watermark invariant: the pass start time is not before the input
watermark, every enumerable record's parsed change time is at or after
the input watermark (the endpoint only reports changes since fromDate),
and change times are non-decreasing in enumeration order. -/
def goodPass (env : SyncEnv) (wm : DateTime) : Prop :=
  dtle wm env.startTime ∧
    (∀ t ∈ passTimes (envRecords env), dtle wm t) ∧
    List.Chain' dtle (passTimes (envRecords env))

instance (env : SyncEnv) (wm : DateTime) : Decidable (goodPass env wm) := by
  unfold goodPass
  exact instDecidableAnd

/-- The watermark in force when pass k of a run starting at wm begins
(the initial watermark for k = 0, else the value persisted by pass k-1).
The default is immaterial: it is only reached past a crash, where no
further pass runs. -/
def wmBefore (wm : DateTime) (envs : List SyncEnv) (k : Nat) : DateTime :=
  (wm :: runTrace wm envs).getD k dt2008

/-! Arithmetic facts about the digit printer and reader. -/

theorem charVal_digitChar (n : Nat) : charVal (digitChar n) = n % 10 := by
  have h : n % 10 < 10 := Nat.mod_lt _ (by omega)
  unfold digitChar charVal
  generalize n % 10 = m at h ⊢
  interval_cases m <;> decide

theorem isDig_digitChar (n : Nat) : isDig (digitChar n) = true := by
  have h : n % 10 < 10 := Nat.mod_lt _ (by omega)
  unfold digitChar isDig
  generalize n % 10 = m at h ⊢
  interval_cases m <;> decide

theorem length_toPadded (w n : Nat) : (toPadded w n).length = w := by
  induction w generalizing n with
  | zero => rfl
  | succ w ih => simp [toPadded, ih]

theorem mem_toPadded_isDig {c : Char} {w n : Nat} (h : c ∈ toPadded w n) : isDig c = true := by
  induction w generalizing n with
  | zero => simp [toPadded] at h
  | succ w ih =>
    simp only [toPadded, List.mem_append, List.mem_singleton] at h
    rcases h with h | h
    · exact ih h
    · subst h
      exact isDig_digitChar n

theorem all_isDig_toPadded (w n : Nat) : (toPadded w n).all isDig = true := by
  rw [List.all_eq_true]
  intro c hc
  exact mem_toPadded_isDig hc

theorem splitAtN_append (xs rest : PyStr) : splitAtN xs.length (xs ++ rest) = some (xs, rest) := by
  induction xs with
  | nil => rfl
  | cons c xs ih => simp [splitAtN, ih]

theorem digitsVal_toPadded (w n : Nat) : digitsVal (toPadded w n) = n % 10 ^ w := by
  induction w generalizing n with
  | zero => simp [toPadded, digitsVal, Nat.mod_one]
  | succ w ih =>
    have h1 := ih (n / 10)
    unfold digitsVal at h1 ⊢
    unfold toPadded
    rw [List.foldl_append, h1, List.foldl_cons, List.foldl_nil, charVal_digitChar]
    have h2 : 10 ^ (w + 1) = 10 * 10 ^ w := by ring
    rw [h2, Nat.mod_mul]
    omega

theorem readFixed_toPadded (w n : Nat) (rest : PyStr) :
    readFixed w (toPadded w n ++ rest) = some (n % 10 ^ w, rest) := by
  have h1 : splitAtN w (toPadded w n ++ rest) = some (toPadded w n, rest) := by
    have h := splitAtN_append (toPadded w n) rest
    rwa [length_toPadded] at h
  unfold readFixed
  rw [h1]
  simp [all_isDig_toPadded, digitsVal_toPadded]

theorem expectChar_cons (c : Char) (cs : PyStr) : expectChar c (c :: cs) = some cs := by
  simp [expectChar]

/-! Character-class facts about the printed forms. -/

theorem isDig_not_space {c : Char} (h : isDig c = true) : isPySpace c = false := by
  simp only [isPySpace, Bool.or_eq_false_iff]
  refine ⟨⟨⟨⟨⟨?_, ?_⟩, ?_⟩, ?_⟩, ?_⟩, ?_⟩ <;>
  · rw [beq_eq_false_iff_ne]
    intro heq
    subst heq
    exact absurd h (by decide)

theorem isDig_bne_dot {c : Char} (h : isDig c = true) : (c != '.') = true := by
  rw [bne_iff_ne]
  intro heq
  subst heq
  exact absurd h (by decide)

theorem isoBase_chars (d : DateTime) :
    ∀ c ∈ d.isoBase, isDig c = true ∨ c = '-' ∨ c = 'T' ∨ c = ':' := by
  unfold DateTime.isoBase
  intro c hc
  simp only [List.mem_append, List.mem_cons] at hc
  rcases hc with ((((h | rfl | h) | rfl | h) | rfl | h) | rfl | h) | rfl | h <;>
    first
      | exact Or.inl (mem_toPadded_isDig h)
      | simp

theorem isoformat_chars (d : DateTime) :
    ∀ c ∈ d.isoformat, isDig c = true ∨ c = '-' ∨ c = 'T' ∨ c = ':' ∨ c = '.' := by
  unfold DateTime.isoformat
  intro c hc
  rw [List.mem_append] at hc
  rcases hc with hc | hc
  · rcases isoBase_chars d c hc with h | h | h | h <;> tauto
  · by_cases hm : d.microsecond = 0
    · rw [if_pos hm] at hc
      simp at hc
    · rw [if_neg hm] at hc
      rcases List.mem_cons.mp hc with rfl | hc
      · tauto
      · exact Or.inl (mem_toPadded_isDig hc)

theorem dropWhile_eq_self_of_all {p : Char → Bool} {xs : PyStr} (h : ∀ c ∈ xs, p c = false) :
    xs.dropWhile p = xs := by
  cases xs with
  | nil => rfl
  | cons c cs =>
    rw [List.dropWhile_cons, h c (by simp)]
    simp

theorem pyStrip_eq_self {xs : PyStr} (h : ∀ c ∈ xs, isPySpace c = false) : pyStrip xs = xs := by
  unfold pyStrip
  rw [dropWhile_eq_self_of_all h,
    dropWhile_eq_self_of_all (fun c hc => h c (List.mem_reverse.mp hc))]
  exact List.reverse_reverse xs

theorem pyStrip_isoformat (d : DateTime) : pyStrip d.isoformat = d.isoformat := by
  apply pyStrip_eq_self
  intro c hc
  rcases isoformat_chars d c hc with h | h | h | h | h
  · exact isDig_not_space h
  all_goals subst h
  all_goals decide

theorem takeWhile_eq_self_of_all {p : Char → Bool} {xs : PyStr} (h : ∀ c ∈ xs, p c = true) :
    xs.takeWhile p = xs := by
  induction xs with
  | nil => rfl
  | cons c cs ih =>
    rw [List.takeWhile_cons, h c (by simp)]
    rw [ih (fun x hx => h x (List.mem_cons_of_mem _ hx))]
    simp

theorem takeWhile_append_all {p : Char → Bool} {xs ys : PyStr} (h : ∀ c ∈ xs, p c = true) :
    (xs ++ ys).takeWhile p = xs ++ ys.takeWhile p := by
  induction xs with
  | nil => simp
  | cons c cs ih =>
    rw [List.cons_append, List.takeWhile_cons, h c (by simp)]
    rw [ih (fun x hx => h x (List.mem_cons_of_mem _ hx))]
    simp

theorem isoBase_bne_dot (d : DateTime) : ∀ c ∈ d.isoBase, (c != '.') = true := by
  intro c hc
  rcases isoBase_chars d c hc with h | h | h | h
  · exact isDig_bne_dot h
  all_goals subst h
  all_goals decide

theorem splitDotHead_isoformat (d : DateTime) : splitDotHead d.isoformat = d.isoBase := by
  unfold DateTime.isoformat splitDotHead
  by_cases hm : d.microsecond = 0
  · rw [if_pos hm, List.append_nil]
    exact takeWhile_eq_self_of_all (isoBase_bne_dot d)
  · rw [if_neg hm, takeWhile_append_all (isoBase_bne_dot d)]
    simp [List.takeWhile_cons]

/-! Round trips between the datetime printers and parsers. -/

theorem parseDatePart_roundtrip (y mo dd : Nat) {rest : PyStr}
    (hy : y < 10000) (hmo : mo < 100) (hdd : dd < 100) :
    parseDatePart (toPadded 4 y ++ '-' :: (toPadded 2 mo ++ '-' :: (toPadded 2 dd ++ rest)))
      = some (y, mo, dd, rest) := by
  have e4 : y % 10 ^ 4 = y := Nat.mod_eq_of_lt (by norm_num; omega)
  have e2 : mo % 10 ^ 2 = mo := Nat.mod_eq_of_lt (by norm_num; omega)
  have e2' : dd % 10 ^ 2 = dd := Nat.mod_eq_of_lt (by norm_num; omega)
  simp only [parseDatePart, readFixed_toPadded, e4, e2, e2', expectChar_cons]

theorem parseTimePart_roundtrip (h mi s : Nat) {rest : PyStr}
    (hh : h < 100) (hmi : mi < 100) (hs : s < 100) :
    parseTimePart (toPadded 2 h ++ ':' :: (toPadded 2 mi ++ ':' :: (toPadded 2 s ++ rest)))
      = some (h, mi, s, rest) := by
  have e1 : h % 10 ^ 2 = h := Nat.mod_eq_of_lt (by norm_num; omega)
  have e2 : mi % 10 ^ 2 = mi := Nat.mod_eq_of_lt (by norm_num; omega)
  have e3 : s % 10 ^ 2 = s := Nat.mod_eq_of_lt (by norm_num; omega)
  simp only [parseTimePart, readFixed_toPadded, e1, e2, e3, expectChar_cons]

theorem isoformat_shape (d : DateTime) :
    d.isoformat =
      toPadded 4 d.year ++ '-' :: (toPadded 2 d.month ++ '-' :: (toPadded 2 d.day ++
        ('T' :: (toPadded 2 d.hour ++ ':' :: (toPadded 2 d.minute ++ ':'
          :: (toPadded 2 d.second ++
            (if d.microsecond = 0 then [] else '.' :: toPadded 6 d.microsecond))))))) := by
  simp [DateTime.isoformat, DateTime.isoBase]

theorem isoBase_shape (d : DateTime) :
    d.isoBase =
      toPadded 4 d.year ++ '-' :: (toPadded 2 d.month ++ '-' :: (toPadded 2 d.day ++
        ('T' :: (toPadded 2 d.hour ++ ':' :: (toPadded 2 d.minute ++ ':'
          :: (toPadded 2 d.second ++ [])))))) := by
  simp [DateTime.isoBase]

theorem strptimeYmdHms_isoBase (d : DateTime) (h : dtValid d) :
    strptimeYmdHms d.isoBase
      = some ⟨d.year, d.month, d.day, d.hour, d.minute, d.second, 0⟩ := by
  obtain ⟨h1, h2, h3, h4, h5, h6, h7, h8, h9, _⟩ := h
  have hv : dtValidb ⟨d.year, d.month, d.day, d.hour, d.minute, d.second, 0⟩ = true := by
    simp only [dtValidb, decide_eq_true_eq]
    refine ⟨h1, h2, h3, h4, h5, h6, h7, h8, h9, by dsimp only; omega⟩
  have hd := @parseDatePart_roundtrip d.year d.month d.day
    ('T' :: (toPadded 2 d.hour ++ ':' :: (toPadded 2 d.minute ++ ':'
      :: (toPadded 2 d.second ++ []))))
    (by omega) (by omega) (by omega)
  have ht := @parseTimePart_roundtrip d.hour d.minute d.second []
    (by omega) (by omega) (by omega)
  rw [isoBase_shape]
  simp only [strptimeYmdHms, hd, expectChar_cons, ht, hv, if_true]

theorem fromisoformat_isoformat (d : DateTime) (h : dtValid d) :
    fromisoformat d.isoformat = some d := by
  obtain ⟨h1, h2, h3, h4, h5, h6, h7, h8, h9, h10⟩ := h
  have hv : dtValidb d = true := by
    simp only [dtValidb, decide_eq_true_eq]
    exact ⟨h1, h2, h3, h4, h5, h6, h7, h8, h9, h10⟩
  rw [isoformat_shape]
  by_cases hm : d.microsecond = 0
  · rw [if_pos hm]
    have hd := @parseDatePart_roundtrip d.year d.month d.day
      ('T' :: (toPadded 2 d.hour ++ ':' :: (toPadded 2 d.minute ++ ':'
        :: (toPadded 2 d.second ++ []))))
      (by omega) (by omega) (by omega)
    have ht := @parseTimePart_roundtrip d.hour d.minute d.second []
      (by omega) (by omega) (by omega)
    have hde : (⟨d.year, d.month, d.day, d.hour, d.minute, d.second, 0⟩ : DateTime) = d := by
      cases d
      simp_all
    simp only [fromisoformat, hd, ht, parseFrac, hde, hv, if_true]
  · rw [if_neg hm]
    have hd := @parseDatePart_roundtrip d.year d.month d.day
      ('T' :: (toPadded 2 d.hour ++ ':' :: (toPadded 2 d.minute ++ ':'
        :: (toPadded 2 d.second ++ ('.' :: toPadded 6 d.microsecond)))))
      (by omega) (by omega) (by omega)
    have ht := @parseTimePart_roundtrip d.hour d.minute d.second
      ('.' :: toPadded 6 d.microsecond) (by omega) (by omega) (by omega)
    have hread : readFixed 6 (toPadded 6 d.microsecond) = some (d.microsecond, []) := by
      have hr := readFixed_toPadded 6 d.microsecond []
      rw [List.append_nil, Nat.mod_eq_of_lt (by norm_num; omega)] at hr
      exact hr
    have hde : (⟨d.year, d.month, d.day, d.hour, d.minute, d.second, d.microsecond⟩ : DateTime)
        = d := by
      cases d
      rfl
    simp only [fromisoformat, hd, ht, parseFrac, hread, hde, hv, if_true]

theorem parseUpdateTime_isoformat (d : DateTime) (h : dtValid d) :
    parseUpdateTime d.isoformat
      = some ⟨d.year, d.month, d.day, d.hour, d.minute, d.second, 0⟩ := by
  unfold parseUpdateTime
  rw [splitDotHead_isoformat, strptimeYmdHms_isoBase d h]

theorem key_trunc_le (d : DateTime) :
    (DateTime.mk d.year d.month d.day d.hour d.minute d.second 0).key ≤ d.key := by
  unfold DateTime.key
  dsimp only
  omega

/-! Facts about parsed change-time lists. -/

theorem mem_passTimes {us : List Update} {u : Update} {t : DateTime}
    (hu : u ∈ us) (ht : parseUpdateTime u.updateTime = some t) : t ∈ passTimes us :=
  List.mem_filterMap.mpr ⟨u, hu, ht⟩

theorem passTimes_cons_some {u : Update} {us : List Update} {t : DateTime}
    (h : parseUpdateTime u.updateTime = some t) :
    passTimes (u :: us) = t :: passTimes us := by
  simp [passTimes, List.filterMap_cons, h]

theorem passTimes_append (xs ys : List Update) :
    passTimes (xs ++ ys) = passTimes xs ++ passTimes ys := by
  simp [passTimes, List.filterMap_append]

/-! Branch equations of the per-page loop. -/

theorem applyUpdates_nil (env : SyncEnv) (idx : Nat) (wm : DateTime) :
    applyUpdates env [] idx wm = ⟨wm, idx, [], none⟩ := rfl

theorem applyUpdates_parse_fail {u : Update} (env : SyncEnv) (us : List Update) (idx : Nat)
    (wm : DateTime) (h : parseUpdateTime u.updateTime = none) :
    applyUpdates env (u :: us) idx wm = ⟨wm, idx, [], some ⟨"ValueError".data⟩⟩ := by
  simp only [applyUpdates, h]

theorem applyUpdates_item_fail {u : Update} {t : DateTime} {e : Exc} (env : SyncEnv)
    (us : List Update) (idx : Nat) (wm : DateTime)
    (hp : parseUpdateTime u.updateTime = some t) (hi : env.itemResult idx = .error e) :
    applyUpdates env (u :: us) idx wm = ⟨wm, idx, [], some e⟩ := by
  simp only [applyUpdates, hp, hi]

theorem applyUpdates_item_ok {u : Update} {t : DateTime} (env : SyncEnv) (us : List Update)
    (idx : Nat) (wm : DateTime)
    (hp : parseUpdateTime u.updateTime = some t) (hi : env.itemResult idx = .ok ()) :
    applyUpdates env (u :: us) idx wm =
      ⟨(applyUpdates env us (idx + 1) t).wm, (applyUpdates env us (idx + 1) t).idx,
        u.videoId :: (applyUpdates env us (idx + 1) t).synced,
        (applyUpdates env us (idx + 1) t).exc⟩ := by
  simp only [applyUpdates, hp, hi]

/-! Invariants of the per-page loop. -/

/-- The candidate watermark leaving a page is the incoming one or the parsed
change time of one of the page's records. -/
theorem applyUpdates_wm_provenance (env : SyncEnv) :
    ∀ (us : List Update) (idx : Nat) (wm : DateTime),
      (applyUpdates env us idx wm).wm = wm ∨ (applyUpdates env us idx wm).wm ∈ passTimes us := by
  intro us
  induction us with
  | nil => intro idx wm; left; rfl
  | cons u us ih =>
    intro idx wm
    cases hp : parseUpdateTime u.updateTime with
    | none => rw [applyUpdates_parse_fail env us idx wm hp]; left; rfl
    | some t =>
      cases hi : env.itemResult idx with
      | error e => rw [applyUpdates_item_fail env us idx wm hp hi]; left; rfl
      | ok _ =>
        rw [applyUpdates_item_ok env us idx wm hp hi, passTimes_cons_some hp]
        rcases ih (idx + 1) t with h | h
        · right
          rw [h]
          exact List.mem_cons_self t _
        · right
          exact List.mem_cons_of_mem _ h

/-- If no record of the page was synchronized, the candidate watermark is
unchanged. -/
theorem applyUpdates_synced_nil (env : SyncEnv) :
    ∀ (us : List Update) (idx : Nat) (wm : DateTime),
      (applyUpdates env us idx wm).synced = [] → (applyUpdates env us idx wm).wm = wm := by
  intro us
  cases us with
  | nil => intro idx wm _; rfl
  | cons u us =>
    intro idx wm h
    cases hp : parseUpdateTime u.updateTime with
    | none => rw [applyUpdates_parse_fail env us idx wm hp]
    | some t =>
      cases hi : env.itemResult idx with
      | error e => rw [applyUpdates_item_fail env us idx wm hp hi]
      | ok _ =>
        rw [applyUpdates_item_ok env us idx wm hp hi] at h
        exact absurd h (by simp)

/-- A page applied without failure synchronized exactly its records'
VideoIds, in page order. -/
theorem applyUpdates_exc_none (env : SyncEnv) :
    ∀ (us : List Update) (idx : Nat) (wm : DateTime),
      (applyUpdates env us idx wm).exc = none →
      (applyUpdates env us idx wm).synced = us.map (fun u => u.videoId) := by
  intro us
  induction us with
  | nil => intro idx wm _; rfl
  | cons u us ih =>
    intro idx wm h
    cases hp : parseUpdateTime u.updateTime with
    | none =>
      rw [applyUpdates_parse_fail env us idx wm hp] at h
      exact absurd h (by simp)
    | some t =>
      cases hi : env.itemResult idx with
      | error e =>
        rw [applyUpdates_item_fail env us idx wm hp hi] at h
        exact absurd h (by simp)
      | ok _ =>
        rw [applyUpdates_item_ok env us idx wm hp hi] at h ⊢
        dsimp only at h ⊢
        simp only [List.map_cons]
        rw [ih (idx + 1) t h]

/-- The candidate watermark leaving a page never exceeds the parsed change
time of any record of the page that was not synchronized, provided all the
page's change times are at or after the incoming watermark and
non-decreasing in page order. -/
theorem applyUpdates_no_overtake (env : SyncEnv) :
    ∀ (us : List Update) (idx : Nat) (wm : DateTime),
      (∀ t ∈ passTimes us, dtle wm t) →
      List.Pairwise dtle (passTimes us) →
      ∀ u ∈ us, u.videoId ∉ (applyUpdates env us idx wm).synced →
      ∀ t, parseUpdateTime u.updateTime = some t →
      dtle (applyUpdates env us idx wm).wm t := by
  intro us
  induction us with
  | nil => intro idx wm _ _ u hu; exact absurd hu (by simp)
  | cons u0 us ih =>
    intro idx wm hlb hsort u hu hns t ht
    cases hp : parseUpdateTime u0.updateTime with
    | none =>
      rw [applyUpdates_parse_fail env us idx wm hp]
      exact hlb t (mem_passTimes hu ht)
    | some t0 =>
      cases hi : env.itemResult idx with
      | error e =>
        rw [applyUpdates_item_fail env us idx wm hp hi]
        exact hlb t (mem_passTimes hu ht)
      | ok _ =>
        rw [applyUpdates_item_ok env us idx wm hp hi] at hns ⊢
        dsimp only at hns ⊢
        rw [passTimes_cons_some hp] at hlb hsort
        rcases List.mem_cons.mp hu with rfl | hu'
        · exact absurd (List.mem_cons_self u.videoId _) hns
        · have hlb' : ∀ s ∈ passTimes us, dtle t0 s :=
            fun s hs => (List.pairwise_cons.mp hsort).1 s hs
          have hsort' : List.Pairwise dtle (passTimes us) := (List.pairwise_cons.mp hsort).2
          have hns' : u.videoId ∉ (applyUpdates env us (idx + 1) t0).synced :=
            fun hmem => hns (List.mem_cons_of_mem _ hmem)
          exact ih (idx + 1) t0 hlb' hsort' u hu' hns' t ht

/-- Exact outcome of a page whose first records synchronize and whose next
record's synchronization raises: the watermark sticks at the last
successful record's parsed time, the failure is returned, and the records
after the failing one are not attempted. -/
theorem applyUpdates_prefix_fail (env : SyncEnv) :
    ∀ (pre : List Update) (uK uf : Update) (post : List Update) (idx : Nat) (wm tK : DateTime)
      (e : Exc),
      (∀ u ∈ pre, ∃ t, parseUpdateTime u.updateTime = some t) →
      (∀ j, j < pre.length + 1 → env.itemResult (idx + j) = .ok ()) →
      parseUpdateTime uK.updateTime = some tK →
      (∃ tf, parseUpdateTime uf.updateTime = some tf) →
      env.itemResult (idx + pre.length + 1) = .error e →
      applyUpdates env (pre ++ uK :: uf :: post) idx wm
        = ⟨tK, idx + pre.length + 1, (pre ++ [uK]).map (fun u => u.videoId), some e⟩ := by
  intro pre
  induction pre with
  | nil =>
    intro uK uf post idx wm tK e _ hok hpK hpf herr
    obtain ⟨tf, hpf⟩ := hpf
    rw [List.nil_append]
    rw [applyUpdates_item_ok env (uf :: post) idx wm hpK (hok 0 (by omega))]
    rw [applyUpdates_item_fail env post (idx + 1) tK hpf (by simpa using herr)]
    simp
  | cons u0 pre ih =>
    intro uK uf post idx wm tK e hparse hok hpK hpf herr
    obtain ⟨t0, hp0⟩ := hparse u0 (List.mem_cons_self u0 pre)
    rw [List.cons_append]
    rw [applyUpdates_item_ok env (pre ++ uK :: uf :: post) idx wm hp0 (hok 0 (by omega))]
    rw [ih uK uf post (idx + 1) t0 tK e
      (fun u hu => hparse u (List.mem_cons_of_mem _ hu))
      (fun j hj => by
        have h1 := hok (j + 1) (by simpa using hj)
        have h2 : idx + 1 + j = idx + (j + 1) := by omega
        rw [h2]
        exact h1)
      hpK hpf
      (by
        have h3 : idx + 1 + pre.length + 1 = idx + (u0 :: pre).length + 1 := by
          simp
          omega
        rw [h3]
        exact herr)]
    have h4 : idx + 1 + pre.length + 1 = idx + (u0 :: pre).length + 1 := by
      simp
      omega
    rw [h4]
    simp

/-! Relating the page oracle to its record lists. -/

theorem pageAt_ok_get? {env : SyncEnv} {k : Nat} {p : Page}
    (h : pageAt env k = .ok p) : env.pages.get? k = some (.ok p) := by
  unfold pageAt at h
  cases hg : env.pages.get? k with
  | none =>
    rw [hg] at h
    simp at h
  | some x =>
    rw [hg] at h
    simp at h
    rw [h]

theorem recordsFrom_decomp {env : SyncEnv} {k : Nat} {p : Page}
    (h : pageAt env k = .ok p) :
    recordsFrom env k = p.updates ++ recordsFrom env (k + 1) := by
  obtain ⟨hk, hget⟩ := List.get?_eq_some.mp (pageAt_ok_get? h)
  have he : env.pages[k] = Except.ok p := by
    rw [← List.get_eq_getElem env.pages ⟨k, hk⟩]
    exact hget
  unfold recordsFrom
  rw [List.drop_eq_getElem_cons hk, List.map_cons, List.flatten_cons, he]
  rfl

theorem fetchedRecords_subset (env : SyncEnv) (n : Nat) :
    ∀ u ∈ fetchedRecords env n, u ∈ envRecords env := by
  intro u hu
  unfold fetchedRecords at hu
  unfold envRecords recordsFrom
  rw [List.drop_zero]
  rcases List.mem_flatten.mp hu with ⟨l, hl, hul⟩
  rcases List.mem_map.mp hl with ⟨pg, hpg, rfl⟩
  exact List.mem_flatten.mpr
    ⟨pageRecords pg, List.mem_map_of_mem _ (List.take_subset _ _ hpg), hul⟩

/-- A record among the first n fetched pages comes from a definite
successful page of definite index. -/
theorem mem_fetchedRecords {env : SyncEnv} {n : Nat} {u : Update}
    (hu : u ∈ fetchedRecords env n) :
    ∃ k, k < n ∧ ∃ p, pageAt env k = .ok p ∧ u ∈ p.updates := by
  unfold fetchedRecords at hu
  rcases List.mem_flatten.mp hu with ⟨l, hl, hul⟩
  rcases List.mem_map.mp hl with ⟨pg, hpg, rfl⟩
  rcases List.mem_iff_get?.mp hpg with ⟨k, hk⟩
  obtain ⟨hklen, hget⟩ := List.get?_eq_some.mp hk
  have hkn : k < n := by
    have h1 := hklen
    rw [List.length_take] at h1
    omega
  have hpk : env.pages.get? k = some pg := by
    rw [← List.get?_take hkn]
    exact hk
  cases pg with
  | error e => exact absurd hul (by simp [pageRecords])
  | ok p =>
    refine ⟨k, hkn, p, ?_, hul⟩
    unfold pageAt
    rw [hpk]
    rfl

/-! Branch equations of the paginated loop. -/

theorem syncLoop_page_error {env : SyncEnv} {calls : Nat} {e : Exc} (fuel idx : Nat)
    (wm : DateTime) (h : pageAt env calls = .error e) :
    syncLoop env (fuel + 1) calls idx wm = ⟨wm, calls + 1, [], some e⟩ := by
  simp only [syncLoop, h]

theorem syncLoop_page_fail {env : SyncEnv} {calls : Nat} {p : Page} {e : Exc} (fuel idx : Nat)
    (wm : DateTime) (hp : pageAt env calls = .ok p)
    (he : (applyUpdates env p.updates idx wm).exc = some e) :
    syncLoop env (fuel + 1) calls idx wm =
      ⟨(applyUpdates env p.updates idx wm).wm, calls + 1,
        (applyUpdates env p.updates idx wm).synced, some e⟩ := by
  simp only [syncLoop, hp, he]

theorem syncLoop_page_last {env : SyncEnv} {calls : Nat} {p : Page} (fuel idx : Nat)
    (wm : DateTime) (hp : pageAt env calls = .ok p)
    (he : (applyUpdates env p.updates idx wm).exc = none)
    (ht : p.nextToken = none) :
    syncLoop env (fuel + 1) calls idx wm =
      ⟨(applyUpdates env p.updates idx wm).wm, calls + 1,
        (applyUpdates env p.updates idx wm).synced, none⟩ := by
  simp only [syncLoop, hp, he, ht]

theorem syncLoop_page_cont {env : SyncEnv} {calls : Nat} {p : Page} {tok : PyStr}
    (fuel idx : Nat) (wm : DateTime) (hp : pageAt env calls = .ok p)
    (he : (applyUpdates env p.updates idx wm).exc = none)
    (ht : p.nextToken = some tok) :
    syncLoop env (fuel + 1) calls idx wm =
      ⟨(syncLoop env fuel (calls + 1) (applyUpdates env p.updates idx wm).idx
          (applyUpdates env p.updates idx wm).wm).wm,
        (syncLoop env fuel (calls + 1) (applyUpdates env p.updates idx wm).idx
          (applyUpdates env p.updates idx wm).wm).calls,
        (applyUpdates env p.updates idx wm).synced ++
          (syncLoop env fuel (calls + 1) (applyUpdates env p.updates idx wm).idx
            (applyUpdates env p.updates idx wm).wm).synced,
        (syncLoop env fuel (calls + 1) (applyUpdates env p.updates idx wm).idx
          (applyUpdates env p.updates idx wm).wm).exc⟩ := by
  simp only [syncLoop, hp, he, ht]

/-! Invariants of the paginated loop. -/

/-- The candidate watermark leaving the loop is the incoming one or the
parsed change time of one of the enumerable records. -/
theorem syncLoop_wm_provenance (env : SyncEnv) :
    ∀ (fuel calls idx : Nat) (wm : DateTime),
      (syncLoop env fuel calls idx wm).wm = wm ∨
        (syncLoop env fuel calls idx wm).wm ∈ passTimes (recordsFrom env calls) := by
  intro fuel
  induction fuel with
  | zero => intro calls idx wm; left; rfl
  | succ fuel ih =>
    intro calls idx wm
    cases hpg : pageAt env calls with
    | error e =>
      rw [syncLoop_page_error fuel idx wm hpg]
      left
      rfl
    | ok p =>
      have hdec := recordsFrom_decomp hpg
      cases hex : (applyUpdates env p.updates idx wm).exc with
      | some e =>
        rw [syncLoop_page_fail fuel idx wm hpg hex]
        dsimp only
        rcases applyUpdates_wm_provenance env p.updates idx wm with h | h
        · left; exact h
        · right
          rw [hdec, passTimes_append]
          exact List.mem_append_left _ h
      | none =>
        cases hnt : p.nextToken with
        | none =>
          rw [syncLoop_page_last fuel idx wm hpg hex hnt]
          dsimp only
          rcases applyUpdates_wm_provenance env p.updates idx wm with h | h
          · left; exact h
          · right
            rw [hdec, passTimes_append]
            exact List.mem_append_left _ h
        | some tok =>
          rw [syncLoop_page_cont fuel idx wm hpg hex hnt]
          dsimp only
          rcases ih (calls + 1) (applyUpdates env p.updates idx wm).idx
              (applyUpdates env p.updates idx wm).wm with h | h
          · rw [h]
            rcases applyUpdates_wm_provenance env p.updates idx wm with h2 | h2
            · left; exact h2
            · right
              rw [hdec, passTimes_append]
              exact List.mem_append_left _ h2
          · right
            rw [hdec, passTimes_append]
            exact List.mem_append_right _ h

/-- A pass that synchronized nothing leaves the candidate watermark at the
input watermark. -/
theorem syncLoop_synced_nil (env : SyncEnv) :
    ∀ (fuel calls idx : Nat) (wm : DateTime),
      (syncLoop env fuel calls idx wm).synced = [] →
      (syncLoop env fuel calls idx wm).wm = wm := by
  intro fuel
  induction fuel with
  | zero => intro calls idx wm _; rfl
  | succ fuel ih =>
    intro calls idx wm hs
    cases hpg : pageAt env calls with
    | error e => rw [syncLoop_page_error fuel idx wm hpg]
    | ok p =>
      cases hex : (applyUpdates env p.updates idx wm).exc with
      | some e =>
        rw [syncLoop_page_fail fuel idx wm hpg hex] at hs ⊢
        dsimp only at hs ⊢
        exact applyUpdates_synced_nil env p.updates idx wm hs
      | none =>
        cases hnt : p.nextToken with
        | none =>
          rw [syncLoop_page_last fuel idx wm hpg hex hnt] at hs ⊢
          dsimp only at hs ⊢
          exact applyUpdates_synced_nil env p.updates idx wm hs
        | some tok =>
          rw [syncLoop_page_cont fuel idx wm hpg hex hnt] at hs ⊢
          dsimp only at hs ⊢
          obtain ⟨h1, h2⟩ := List.append_eq_nil.mp hs
          have hq := applyUpdates_synced_nil env p.updates idx wm h1
          rw [hq] at h2 ⊢
          exact ih (calls + 1) (applyUpdates env p.updates idx wm).idx wm h2

/-- After a clean loop, every record of every fetched page has its VideoId
in the synchronized list. -/
theorem syncLoop_exc_none_applied (env : SyncEnv) :
    ∀ (fuel calls idx : Nat) (wm : DateTime),
      (syncLoop env fuel calls idx wm).exc = none →
      ∀ k, calls ≤ k → k < (syncLoop env fuel calls idx wm).calls →
      ∀ p, pageAt env k = .ok p →
      ∀ u ∈ p.updates, u.videoId ∈ (syncLoop env fuel calls idx wm).synced := by
  intro fuel
  induction fuel with
  | zero =>
    intro calls idx wm _ k hk1 hk2
    dsimp only [syncLoop] at hk2
    exact absurd hk1 (by omega)
  | succ fuel ih =>
    intro calls idx wm hx k hk1 hk2 p hk u hu
    cases hpg : pageAt env calls with
    | error e =>
      rw [syncLoop_page_error fuel idx wm hpg] at hx
      exact absurd hx (by simp)
    | ok p0 =>
      cases hex : (applyUpdates env p0.updates idx wm).exc with
      | some e =>
        rw [syncLoop_page_fail fuel idx wm hpg hex] at hx
        exact absurd hx (by simp)
      | none =>
        cases hnt : p0.nextToken with
        | none =>
          rw [syncLoop_page_last fuel idx wm hpg hex hnt] at hk2 ⊢
          dsimp only at hk2 ⊢
          have hkc : k = calls := by omega
          subst hkc
          rw [hpg] at hk
          cases hk
          rw [applyUpdates_exc_none env p.updates idx wm hex]
          exact List.mem_map_of_mem _ hu
        | some tok =>
          rw [syncLoop_page_cont fuel idx wm hpg hex hnt] at hx hk2 ⊢
          dsimp only at hx hk2 ⊢
          rcases Nat.lt_or_ge k (calls + 1) with hlt | hge
          · have hkc : k = calls := by omega
            subst hkc
            rw [hpg] at hk
            cases hk
            apply List.mem_append_left
            rw [applyUpdates_exc_none env p.updates idx wm hex]
            exact List.mem_map_of_mem _ hu
          · apply List.mem_append_right
            exact ih (calls + 1) (applyUpdates env p0.updates idx wm).idx
              (applyUpdates env p0.updates idx wm).wm hx k hge hk2 p hk u hu

/-- The candidate watermark leaving the loop never exceeds the parsed
change time of any enumerable record that was not synchronized, provided
all enumerable change times are at or after the input watermark and
non-decreasing in enumeration order. -/
theorem syncLoop_no_overtake (env : SyncEnv) :
    ∀ (fuel calls idx : Nat) (wm : DateTime),
      (∀ t ∈ passTimes (recordsFrom env calls), dtle wm t) →
      List.Pairwise dtle (passTimes (recordsFrom env calls)) →
      ∀ u ∈ recordsFrom env calls,
        u.videoId ∉ (syncLoop env fuel calls idx wm).synced →
        ∀ t, parseUpdateTime u.updateTime = some t →
        dtle (syncLoop env fuel calls idx wm).wm t := by
  intro fuel
  induction fuel with
  | zero =>
    intro calls idx wm hlb _ u hu _ t ht
    exact hlb t (mem_passTimes hu ht)
  | succ fuel ih =>
    intro calls idx wm hlb hsort u hu hns t ht
    cases hpg : pageAt env calls with
    | error e =>
      rw [syncLoop_page_error fuel idx wm hpg]
      exact hlb t (mem_passTimes hu ht)
    | ok p =>
      have hdec := recordsFrom_decomp hpg
      rw [hdec, passTimes_append] at hlb hsort
      obtain ⟨hs1, hs2, hcross⟩ := List.pairwise_append.mp hsort
      have hlb1 : ∀ s ∈ passTimes p.updates, dtle wm s :=
        fun s hs => hlb s (List.mem_append_left _ hs)
      have hlb2 : ∀ s ∈ passTimes (recordsFrom env (calls + 1)), dtle wm s :=
        fun s hs => hlb s (List.mem_append_right _ hs)
      have hqlb : ∀ s ∈ passTimes (recordsFrom env (calls + 1)),
          dtle (applyUpdates env p.updates idx wm).wm s := by
        intro s hs
        rcases applyUpdates_wm_provenance env p.updates idx wm with h | h
        · rw [h]; exact hlb2 s hs
        · exact hcross _ h s hs
      rw [hdec] at hu
      cases hex : (applyUpdates env p.updates idx wm).exc with
      | some e =>
        rw [syncLoop_page_fail fuel idx wm hpg hex] at hns ⊢
        dsimp only at hns ⊢
        rcases List.mem_append.mp hu with hu' | hu'
        · exact applyUpdates_no_overtake env p.updates idx wm hlb1 hs1 u hu' hns t ht
        · exact hqlb t (mem_passTimes hu' ht)
      | none =>
        cases hnt : p.nextToken with
        | none =>
          rw [syncLoop_page_last fuel idx wm hpg hex hnt] at hns ⊢
          dsimp only at hns ⊢
          rcases List.mem_append.mp hu with hu' | hu'
          · exact applyUpdates_no_overtake env p.updates idx wm hlb1 hs1 u hu' hns t ht
          · exact hqlb t (mem_passTimes hu' ht)
        | some tok =>
          rw [syncLoop_page_cont fuel idx wm hpg hex hnt] at hns ⊢
          dsimp only at hns ⊢
          rcases List.mem_append.mp hu with hu' | hu'
          · refine absurd ?_ hns
            apply List.mem_append_left
            rw [applyUpdates_exc_none env p.updates idx wm hex]
            exact List.mem_map_of_mem _ hu'
          · have hns' : u.videoId ∉ (syncLoop env fuel (calls + 1)
                (applyUpdates env p.updates idx wm).idx
                (applyUpdates env p.updates idx wm).wm).synced :=
              fun hmem => hns (List.mem_append_right _ hmem)
            exact ih (calls + 1) (applyUpdates env p.updates idx wm).idx
              (applyUpdates env p.updates idx wm).wm hqlb hs2 u hu' hns' t ht

/-- Running the loop over pages that are all empty with a continuation
token consumes all the fuel, one enumeration call per unit, changing
nothing. -/
theorem syncLoop_empty_pages (env : SyncEnv) :
    ∀ (fuel calls idx : Nat) (wm : DateTime),
      (∀ k, calls ≤ k → k < calls + fuel → ∃ tok, pageAt env k = .ok ⟨[], some tok⟩) →
      syncLoop env fuel calls idx wm = ⟨wm, calls + fuel, [], none⟩ := by
  intro fuel
  induction fuel with
  | zero => intro calls idx wm _; rfl
  | succ fuel ih =>
    intro calls idx wm hp
    obtain ⟨tok, hpg⟩ := hp calls (Nat.le_refl _) (by omega)
    rw [syncLoop_page_cont fuel idx wm hpg rfl rfl]
    dsimp only [applyUpdates]
    rw [ih (calls + 1) idx wm (fun k hk1 hk2 => hp k (by omega) (by omega))]
    dsimp only
    have harith : calls + 1 + fuel = calls + (fuel + 1) := by omega
    rw [harith]
    rfl

/-- A loop that ends without failure, having seen only pages carrying a
continuation token, ran out of fuel: it made exactly fuel enumeration
calls beyond those already made. -/
theorem syncLoop_all_tokens_calls (env : SyncEnv) :
    ∀ (fuel calls idx : Nat) (wm : DateTime),
      (syncLoop env fuel calls idx wm).exc = none →
      (∀ k, calls ≤ k → k < (syncLoop env fuel calls idx wm).calls →
        ∀ p, pageAt env k = .ok p → p.nextToken.isSome) →
      (syncLoop env fuel calls idx wm).calls = calls + fuel := by
  intro fuel
  induction fuel with
  | zero => intro calls idx wm _ _; rfl
  | succ fuel ih =>
    intro calls idx wm hx htok
    cases hpg : pageAt env calls with
    | error e =>
      rw [syncLoop_page_error fuel idx wm hpg] at hx
      exact absurd hx (by simp)
    | ok p =>
      cases hex : (applyUpdates env p.updates idx wm).exc with
      | some e =>
        rw [syncLoop_page_fail fuel idx wm hpg hex] at hx
        exact absurd hx (by simp)
      | none =>
        cases hnt : p.nextToken with
        | none =>
          rw [syncLoop_page_last fuel idx wm hpg hex hnt] at htok
          dsimp only at htok
          have h1 := htok calls (Nat.le_refl _) (by omega) p hpg
          rw [hnt] at h1
          exact absurd h1 (by simp)
        | some tok =>
          rw [syncLoop_page_cont fuel idx wm hpg hex hnt] at hx htok ⊢
          dsimp only at hx htok ⊢
          rw [ih (calls + 1) (applyUpdates env p.updates idx wm).idx
            (applyUpdates env p.updates idx wm).wm hx
            (fun k hk1 hk2 => htok k (by omega) hk2)]
          omega

/-! Pass-level characterizations of sync. -/

theorem sync_ok_of_auth {env : SyncEnv} {wm : DateTime} {tok : PyStr}
    (ha : env.authResult = .ok tok) :
    sync env wm = .ok ⟨(if (syncLoop env 1000 0 0 wm).exc = none then env.startTime
        else (syncLoop env 1000 0 0 wm).wm),
      (syncLoop env 1000 0 0 wm).exc, (syncLoop env 1000 0 0 wm).calls,
      (syncLoop env 1000 0 0 wm).synced⟩ := by
  unfold sync
  rw [ha]
  cases hx : (syncLoop env 1000 0 0 wm).exc with
  | none => simp [hx]
  | some e => simp [hx]

theorem sync_error_of_auth {env : SyncEnv} {wm : DateTime} {e : Exc}
    (ha : env.authResult = .error e) : sync env wm = .error e := by
  unfold sync
  rw [ha]

/-! Pass-level invariants of sync. -/

/-- On a good pass, sync never returns a watermark before the input one. -/
theorem sync_wm_mono {env : SyncEnv} {wm : DateTime} {r : SyncOut}
    (hg : goodPass env wm) (hr : sync env wm = .ok r) : dtle wm r.wm := by
  obtain ⟨hst, hlb, _⟩ := hg
  cases ha : env.authResult with
  | error e =>
    rw [sync_error_of_auth ha] at hr
    exact absurd hr (by simp)
  | ok tok =>
    rw [sync_ok_of_auth ha] at hr
    injection hr with hr
    subst hr
    dsimp only
    by_cases hx : (syncLoop env 1000 0 0 wm).exc = none
    · rw [if_pos hx]
      exact hst
    · rw [if_neg hx]
      rcases syncLoop_wm_provenance env 1000 0 0 wm with h | h
      · rw [h]
        exact Nat.le_refl _
      · exact hlb _ h

/-- On a good pass, the returned watermark never exceeds the parsed change
time of a fetched record that was not synchronized. -/
theorem sync_no_overtake {env : SyncEnv} {wm : DateTime} {r : SyncOut}
    (hg : goodPass env wm) (hr : sync env wm = .ok r) :
    ∀ u ∈ fetchedRecords env r.calls, u.videoId ∉ r.synced →
    ∀ t, parseUpdateTime u.updateTime = some t → dtle r.wm t := by
  obtain ⟨hst, hlb, hchain⟩ := hg
  have hsort : List.Pairwise dtle (passTimes (envRecords env)) :=
    List.chain'_iff_pairwise.mp hchain
  cases ha : env.authResult with
  | error e =>
    rw [sync_error_of_auth ha] at hr
    exact absurd hr (by simp)
  | ok tok =>
    rw [sync_ok_of_auth ha] at hr
    injection hr with hr
    subst hr
    dsimp only
    intro u hu hns t ht
    by_cases hx : (syncLoop env 1000 0 0 wm).exc = none
    · exfalso
      obtain ⟨k, hk, p, hp, hup⟩ := mem_fetchedRecords hu
      exact hns (syncLoop_exc_none_applied env 1000 0 0 wm hx k (Nat.zero_le _) hk p hp u hup)
    · rw [if_neg hx]
      exact syncLoop_no_overtake env 1000 0 0 wm hlb hsort u
        (fetchedRecords_subset env _ u hu) hns t ht

/-- Good passes persist a non-decreasing sequence of watermarks. -/
theorem runTrace_chain :
    ∀ (envs : List SyncEnv) (wm : DateTime),
      (∀ k (h : k < envs.length), goodPass (envs.get ⟨k, h⟩) (wmBefore wm envs k)) →
      List.Chain dtle wm (runTrace wm envs) := by
  intro envs
  induction envs with
  | nil => intro wm _; exact List.Chain.nil
  | cons e rest ih =>
    intro wm hg
    have hg0 : goodPass e wm := by
      have h := hg 0 (by simp)
      simpa [wmBefore] using h
    cases hs : sync e wm with
    | error err =>
      simp only [runTrace, hs]
      exact List.Chain.nil
    | ok r =>
      simp only [runTrace, hs]
      refine List.Chain.cons (sync_wm_mono hg0 hs) (ih r.wm ?_)
      intro k h
      have h2 := hg (k + 1) (by simpa using h)
      have heq : wmBefore wm (e :: rest) (k + 1) = wmBefore r.wm rest k := by
        unfold wmBefore
        rw [List.getD_cons_succ]
        have hstep : runTrace wm (e :: rest) = r.wm :: runTrace r.wm rest := by
          simp only [runTrace, hs]
        rw [hstep]
      rw [heq] at h2
      exact h2

/-- One pass that returns an outcome persists exactly its watermark. -/
theorem runTrace_singleton_ok {env : SyncEnv} {wm : DateTime} {r : SyncOut}
    (h : sync env wm = .ok r) : runTrace wm [env] = [r.wm] := by
  simp only [runTrace, h]

/-! Shared sample data for concrete evaluations. -/

/-- A sample bearer token. -/
def sampleTok : PyStr := "token".data

/-- A sample pass start time, 2020-01-01 00:01:00. -/
def startT : DateTime := ⟨2020, 1, 1, 0, 1, 0, 0⟩

/-- Update record of video a, changed at 2020-01-01 00:00:01. -/
def updA : Update := ⟨"a".data, "2020-01-01T00:00:01".data⟩

/-- Update record of video b, changed at 2020-01-01 00:00:02. -/
def updB : Update := ⟨"b".data, "2020-01-01T00:00:02".data⟩

/-- The parsed change time of updA. -/
def tA : DateTime := ⟨2020, 1, 1, 0, 0, 1, 0⟩

/-- The parsed change time of updB. -/
def tB : DateTime := ⟨2020, 1, 1, 0, 0, 2, 0⟩

/-- An item-synchronization oracle where every call succeeds. -/
def allOk : Nat → Except Exc Unit := fun _ => .ok ()

/-- A sample continuation token. -/
def tokT : PyStr := "t".data

/-- An enumeration response with no updates and a continuation token. -/
def emptyTokPage : Except Exc Page := .ok ⟨[], some tokT⟩

/-- One page holding updA and updB, with a null next token. -/
def envTwoOk : SyncEnv := ⟨.ok sampleTok, [.ok ⟨[updA, updB], none⟩], allOk, startT⟩

/-- 1000 empty pages that each carry a continuation token. -/
def envCeiling : SyncEnv := ⟨.ok sampleTok, List.replicate 1000 emptyTokPage, allOk, startT⟩

/-- An enumerable record older than every other sample time. -/
def oldRec : Update := ⟨"old".data, "2019-01-01T00:00:00".data⟩

/-- The parsed change time of oldRec. -/
def tOld : DateTime := ⟨2019, 1, 1, 0, 0, 0, 0⟩

/-- 1000 empty token-carrying pages, then a page holding oldRec that the
page ceiling prevents the pass from ever fetching. -/
def envOvertake : SyncEnv :=
  ⟨.ok sampleTok, List.replicate 1000 emptyTokPage ++ [.ok ⟨[oldRec], none⟩], allOk, startT⟩

/-- A single empty page with a null token: a pass that finds no changes. -/
def envEmpty : SyncEnv := ⟨.ok sampleTok, [.ok ⟨[], none⟩], allOk, startT⟩

/-- First enumeration call raises a transport error. -/
def envEnumFail : SyncEnv := ⟨.ok sampleTok, [.error ⟨"http 500".data⟩], allOk, startT⟩

/-- Token acquisition raises an authentication error. -/
def envAuthFail : SyncEnv := ⟨.error ⟨"401".data⟩, [], allOk, startT⟩

/-- One page of updA and updB where the second item's synchronization
raises. -/
def envPartial : SyncEnv :=
  ⟨.ok sampleTok, [.ok ⟨[updA, updB], none⟩],
    fun k => if k = 0 then .ok () else .error ⟨"push".data⟩, startT⟩

/-! Evaluation helpers for the replicated-page environments. -/

theorem get?_replicate {α : Type} (x : α) : ∀ {n k : Nat}, k < n →
    (List.replicate n x).get? k = some x := by
  intro n
  induction n with
  | zero => intro k h; exact absurd h (by omega)
  | succ n ih =>
    intro k h
    cases k with
    | zero => rfl
    | succ k => exact ih (by omega)

theorem get?_replicate_append {α : Type} (x : α) (rest : List α) : ∀ {n k : Nat}, k < n →
    (List.replicate n x ++ rest).get? k = some x := by
  intro n
  induction n with
  | zero => intro k h; exact absurd h (by omega)
  | succ n ih =>
    intro k h
    cases k with
    | zero => rfl
    | succ k => exact ih (by omega)

theorem flatten_replicate_nil {α : Type} (n : Nat) :
    (List.replicate n ([] : List α)).flatten = [] := by
  induction n with
  | zero => rfl
  | succ n ih => simpa [List.replicate_succ] using ih

theorem pageAt_envCeiling {k : Nat} (h : k < 1000) :
    pageAt envCeiling k = .ok ⟨[], some tokT⟩ := by
  unfold pageAt envCeiling
  dsimp only
  rw [get?_replicate emptyTokPage h]
  rfl

theorem pageAt_envOvertake {k : Nat} (h : k < 1000) :
    pageAt envOvertake k = .ok ⟨[], some tokT⟩ := by
  unfold pageAt envOvertake
  dsimp only
  rw [get?_replicate_append emptyTokPage _ h]
  rfl

theorem sync_envCeiling_eval : sync envCeiling dt2008 = .ok ⟨startT, none, 1000, []⟩ := by
  have hloop := syncLoop_empty_pages envCeiling 1000 0 0 dt2008
    (fun k hk1 hk2 => ⟨tokT, pageAt_envCeiling (by omega)⟩)
  rw [sync_ok_of_auth (show envCeiling.authResult = .ok sampleTok from rfl), hloop]
  rfl

theorem sync_envOvertake_eval : sync envOvertake dt2008 = .ok ⟨startT, none, 1000, []⟩ := by
  have hloop := syncLoop_empty_pages envOvertake 1000 0 0 dt2008
    (fun k hk1 hk2 => ⟨tokT, pageAt_envOvertake (by omega)⟩)
  rw [sync_ok_of_auth (show envOvertake.authResult = .ok sampleTok from rfl), hloop]
  rfl

theorem envRecords_envOvertake : envRecords envOvertake = [oldRec] := by
  unfold envRecords recordsFrom envOvertake
  dsimp only
  rw [List.drop_zero, List.map_append, List.flatten_append, List.map_replicate]
  rw [show pageRecords emptyTokPage = [] from rfl, flatten_replicate_nil]
  rfl

/-! Claim C1. -/

/-- Claim C1, counterexample: a pass whose single page holds exactly two
updates with change times tA < tB, both synchronizations succeeding and
the next cursor null, returns no failure and syncs a then b — but the
returned watermark is the pass start time, not tB, because sync
overwrites the candidate with start_time whenever no exception was
caught. -/
theorem c1_counterexample :
    sync envTwoOk dt2008 = .ok ⟨startT, none, 1, [updA.videoId, updB.videoId]⟩ ∧
    startT ≠ tB := by
  constructor
  · rfl
  · decide

/-- Claim C1 (amended): for a pass whose single page contains exactly two
updates with change timestamps T1 and T2 where T2 > T1, both item
synchronizations succeeding and the next cursor null, sync returns no
failure, synchronizes the two items in page order (first then second),
and returns the pass start time as the watermark (not T2: the code
overwrites the candidate watermark with start_time on a clean pass). -/
theorem c1_two_updates_clean_pass (env : SyncEnv) (wm t1 t2 : DateTime) (a b : Update)
    (tok : PyStr)
    (ha : env.authResult = .ok tok)
    (hp : pageAt env 0 = .ok ⟨[a, b], none⟩)
    (ht1 : parseUpdateTime a.updateTime = some t1)
    (ht2 : parseUpdateTime b.updateTime = some t2)
    (hlt : t1.key < t2.key)
    (hi0 : env.itemResult 0 = .ok ())
    (hi1 : env.itemResult 1 = .ok ()) :
    sync env wm = .ok ⟨env.startTime, none, 1, [a.videoId, b.videoId]⟩ := by
  have happ : applyUpdates env [a, b] 0 wm = ⟨t2, 2, [a.videoId, b.videoId], none⟩ := by
    rw [applyUpdates_item_ok env [b] 0 wm ht1 hi0]
    rw [applyUpdates_item_ok env [] 1 t1 ht2 hi1]
    rfl
  have hloop : syncLoop env 1000 0 0 wm = ⟨t2, 1, [a.videoId, b.videoId], none⟩ := by
    rw [show (1000 : Nat) = 999 + 1 from rfl]
    rw [syncLoop_page_last 999 0 wm hp (by dsimp only; rw [happ]) rfl]
    dsimp only
    rw [happ]
  rw [sync_ok_of_auth ha, hloop]
  simp

/-- Witness for C1 at the concrete two-update environment. -/
theorem c1_witness :
    sync envTwoOk dt2008 = .ok ⟨startT, none, 1, [updA.videoId, updB.videoId]⟩ :=
  c1_two_updates_clean_pass envTwoOk dt2008 tA tB updA updB sampleTok rfl rfl (by decide)
    (by decide) (by decide) rfl rfl

/-! Claim C2. -/

/-- Claim C2, counterexample: a pass whose enumerator still returns a
continuation token at the 1000-page ceiling makes exactly 1000 calls and
returns no failure, but the returned watermark is the pass start time,
not the watermark reached from the records actually applied (here no
record was applied, so the reached watermark is the input dt2008, yet
startT is returned). -/
theorem c2_counterexample :
    sync envCeiling dt2008 = .ok ⟨startT, none, 1000, []⟩ ∧ startT ≠ dt2008 := by
  constructor
  · exact sync_envCeiling_eval
  · decide

/-- Claim C2 (amended): a pass that completes without failure and whose
fetched pages all carried a continuation token has performed exactly 1000
enumeration calls (the page ceiling, reached without failure), and the
returned watermark is the pass start time — not the watermark reached from
the records applied. -/
theorem c2_ceiling_pass (env : SyncEnv) (wm : DateTime) (r : SyncOut) (tok : PyStr)
    (ha : env.authResult = .ok tok)
    (hr : sync env wm = .ok r)
    (hx : r.exc = none)
    (htok : ∀ k, k < r.calls → ∀ p, pageAt env k = .ok p → p.nextToken.isSome) :
    r.calls = 1000 ∧ r.wm = env.startTime := by
  rw [sync_ok_of_auth ha] at hr
  injection hr with hr
  subst hr
  dsimp only at hx htok ⊢
  constructor
  · have h := syncLoop_all_tokens_calls env 1000 0 0 wm hx
      (fun k hk1 hk2 => htok k hk2)
    simpa using h
  · rw [if_pos hx]

/-- Witness for C2 at the concrete 1000-page environment. -/
theorem c2_witness :
    sync envCeiling dt2008 = .ok ⟨startT, none, 1000, []⟩ ∧
    (⟨startT, none, 1000, []⟩ : SyncOut).calls = 1000 ∧
    (⟨startT, none, 1000, []⟩ : SyncOut).wm = envCeiling.startTime := by
  refine ⟨sync_envCeiling_eval, ?_⟩
  refine c2_ceiling_pass envCeiling dt2008 _ sampleTok rfl sync_envCeiling_eval rfl ?_
  intro k hk p hp
  rw [pageAt_envCeiling (by simpa using hk)] at hp
  injection hp with hp
  rw [← hp]
  rfl

/-! Claim C3. -/

/-- Claim C3, counterexample: one ceiling-bounded pass persists the pass
start time while the enumerable record oldRec — whose parsed change time
tOld is before that watermark — was never synchronized: the persisted
watermark advances past a change that was not applied. -/
theorem c3_counterexample :
    sync envOvertake dt2008 = .ok ⟨startT, none, 1000, []⟩ ∧
    oldRec ∈ envRecords envOvertake ∧
    parseUpdateTime oldRec.updateTime = some tOld ∧
    oldRec.videoId ∉ ([] : List PyStr) ∧
    tOld.key < startT.key ∧
    runTrace dt2008 [envOvertake] = [startT] := by
  refine ⟨sync_envOvertake_eval, ?_, by decide, by simp, by decide, ?_⟩
  · rw [envRecords_envOvertake]
    exact List.mem_cons_self _ _
  · rw [runTrace_singleton_ok sync_envOvertake_eval]

/-- Claim C3 (amended): over passes whose enumerable change times are at
or after the pass's input watermark and non-decreasing in enumeration
order, with pass start times not before the input watermark, the
persisted watermark sequence of the run loop is non-decreasing; and in
any single such pass, the returned watermark never exceeds the parsed
change time of a fetched record that was not synchronized.  (As stated
the claim is false: records beyond the 1000-page ceiling are never
fetched, and a clean pass advances to the pass start time regardless —
see the counterexample.) -/
theorem c3_watermark_invariant :
    (∀ (envs : List SyncEnv) (wm : DateTime),
      (∀ k (h : k < envs.length), goodPass (envs.get ⟨k, h⟩) (wmBefore wm envs k)) →
      List.Chain dtle wm (runTrace wm envs)) ∧
    (∀ (env : SyncEnv) (wm : DateTime) (r : SyncOut),
      goodPass env wm → sync env wm = .ok r →
      ∀ u ∈ fetchedRecords env r.calls, u.videoId ∉ r.synced →
      ∀ t, parseUpdateTime u.updateTime = some t → dtle r.wm t) :=
  ⟨runTrace_chain, fun _ _ _ hg hr => sync_no_overtake hg hr⟩

/-- Witness for C3 at a one-pass run over a single empty page. -/
theorem c3_witness :
    List.Chain dtle dt2008 (runTrace dt2008 [envEmpty]) ∧
    (∀ u ∈ fetchedRecords envEmpty 1, u.videoId ∉ ([] : List PyStr) →
      ∀ t, parseUpdateTime u.updateTime = some t → dtle startT t) := by
  constructor
  · refine c3_watermark_invariant.1 [envEmpty] dt2008 ?_
    intro k h
    have hk0 : k = 0 := by simpa using h
    subst hk0
    have hgp : goodPass envEmpty dt2008 := by decide
    simpa [wmBefore] using hgp
  · intro u hu hns t ht
    exact c3_watermark_invariant.2 envEmpty dt2008 ⟨startT, none, 1, []⟩ (by decide) rfl
      u hu hns t ht

/-! Claim C4. -/

/-- Claim C4 (confirmed): if the first K items of the page apply
successfully and synchronization of item K+1 raises, sync aborts the
remaining items, returns that failure, and the returned watermark is the
parsed change timestamp of item K — not that of item K+1 or any later
item.  Here pre lists the first K-1 items, uK is item K, uf the failing
item K+1, and post the aborted remainder. -/
theorem c4_partial_progress (env : SyncEnv) (wm tK : DateTime) (pre : List Update)
    (uK uf : Update) (post : List Update) (nt : Option PyStr) (e : Exc) (tok : PyStr)
    (ha : env.authResult = .ok tok)
    (hp : pageAt env 0 = .ok ⟨pre ++ uK :: uf :: post, nt⟩)
    (hparse : ∀ u ∈ pre, ∃ t, parseUpdateTime u.updateTime = some t)
    (hok : ∀ j, j < pre.length + 1 → env.itemResult j = .ok ())
    (hpK : parseUpdateTime uK.updateTime = some tK)
    (hpf : ∃ tf, parseUpdateTime uf.updateTime = some tf)
    (herr : env.itemResult (pre.length + 1) = .error e) :
    sync env wm = .ok ⟨tK, some e, 1, (pre ++ [uK]).map (fun u => u.videoId)⟩ := by
  have happ := applyUpdates_prefix_fail env pre uK uf post 0 wm tK e hparse
    (fun j hj => by rw [Nat.zero_add]; exact hok j hj) hpK hpf
    (by rw [Nat.zero_add]; exact herr)
  have hloop : syncLoop env 1000 0 0 wm =
      ⟨tK, 1, (pre ++ [uK]).map (fun u => u.videoId), some e⟩ := by
    rw [show (1000 : Nat) = 999 + 1 from rfl]
    rw [syncLoop_page_fail 999 0 wm hp (by dsimp only; rw [happ])]
    dsimp only
    rw [happ]
  rw [sync_ok_of_auth ha, hloop]
  simp

/-- Witness for C4: video a applies, video b's push fails, the pass
returns the failure with watermark tA and only a synchronized. -/
theorem c4_witness :
    sync envPartial dt2008 = .ok ⟨tA, some ⟨"push".data⟩, 1, [updA.videoId]⟩ := by
  have h := c4_partial_progress envPartial dt2008 tA [] updA updB [] none
    ⟨"push".data⟩ sampleTok rfl rfl (by simp)
    (fun j hj => by
      have hj0 : j = 0 := by simpa using hj
      subst hj0
      rfl)
    (by decide) ⟨tB, by decide⟩ rfl
  simpa using h

/-! Claim C5. -/

/-- Claim C5 (confirmed): a pass that fails before applying any item —
for example because the first enumeration call raises — returns the
failure together with a watermark equal to the input watermark, and the
run loop persists exactly that unchanged watermark.  In general, any
failed pass that synchronized nothing returns its input watermark. -/
theorem c5_no_progress_no_advance :
    (∀ (env : SyncEnv) (wm : DateTime) (e : Exc) (tok : PyStr),
      env.authResult = .ok tok → pageAt env 0 = .error e →
      sync env wm = .ok ⟨wm, some e, 1, []⟩ ∧ runTrace wm [env] = [wm]) ∧
    (∀ (env : SyncEnv) (wm : DateTime) (r : SyncOut),
      sync env wm = .ok r → r.exc ≠ none → r.synced = [] → r.wm = wm) := by
  constructor
  · intro env wm e tok ha hp
    have hloop : syncLoop env 1000 0 0 wm = ⟨wm, 1, [], some e⟩ := by
      rw [show (1000 : Nat) = 999 + 1 from rfl]
      exact syncLoop_page_error 999 0 wm hp
    have hs : sync env wm = .ok ⟨wm, some e, 1, []⟩ := by
      rw [sync_ok_of_auth ha, hloop]
      simp
    refine ⟨hs, ?_⟩
    simp only [runTrace, hs]
  · intro env wm r hr hx hs
    cases ha : env.authResult with
    | error e =>
      rw [sync_error_of_auth ha] at hr
      exact absurd hr (by simp)
    | ok tok =>
      rw [sync_ok_of_auth ha] at hr
      injection hr with hr
      subst hr
      dsimp only at hx hs ⊢
      by_cases hxx : (syncLoop env 1000 0 0 wm).exc = none
      · exact absurd hxx hx
      · rw [if_neg hxx]
        exact syncLoop_synced_nil env 1000 0 0 wm hs

/-- Witness for C5 at the failing-enumeration environment. -/
theorem c5_witness :
    sync envEnumFail dt2008 = .ok ⟨dt2008, some ⟨"http 500".data⟩, 1, []⟩ ∧
    runTrace dt2008 [envEnumFail] = [dt2008] ∧
    (⟨dt2008, some ⟨"http 500".data⟩, 1, []⟩ : SyncOut).wm = dt2008 := by
  obtain ⟨h1, h2⟩ := c5_no_progress_no_advance.1 envEnumFail dt2008 ⟨"http 500".data⟩
    sampleTok rfl rfl
  exact ⟨h1, h2, c5_no_progress_no_advance.2 envEnumFail dt2008 _ h1 (by simp) rfl⟩

/-! Claim C6. -/

/-- Claim C6, counterexample: an authentication failure during token
acquisition is raised before sync's try block, so it escapes sync
(modelled as Except.error) instead of being returned in the pass outcome,
and the run loop dies without persisting anything. -/
theorem c6_counterexample :
    sync envAuthFail dt2008 = .error ⟨"401".data⟩ ∧
    runTrace dt2008 [envAuthFail] = [] :=
  ⟨rfl, rfl⟩

/-- Claim C6 (amended): every failure raised inside the paginated
enumeration and application loop is caught at the pass boundary and
returned as part of the pass outcome, so the run loop persists the
watermark and continues; but a token-acquisition failure occurs before
the try block and propagates out of sync uncaught. -/
theorem c6_catch_boundary :
    (∀ (env : SyncEnv) (wm : DateTime) (tok : PyStr), env.authResult = .ok tok →
      ∃ r, sync env wm = .ok r) ∧
    (∀ (env : SyncEnv) (wm : DateTime) (e : Exc), env.authResult = .error e →
      sync env wm = .error e) := by
  constructor
  · intro env wm tok ha
    exact ⟨_, sync_ok_of_auth ha⟩
  · intro env wm e ha
    exact sync_error_of_auth ha

/-- Witness for C6: with a good token the pass always returns an outcome;
with a failed token acquisition sync propagates the error. -/
theorem c6_witness :
    (∃ r, sync envEmpty dt2008 = .ok r) ∧
    sync envAuthFail dt2008 = .error ⟨"401".data⟩ :=
  ⟨c6_catch_boundary.1 envEmpty dt2008 sampleTok rfl,
    c6_catch_boundary.2 envAuthFail dt2008 ⟨"401".data⟩ rfl⟩

/-! Claim C7. -/

/-- Claim C7 (confirmed): a pass whose first enumeration call returns an
empty update list and a null next token completes without failure after
exactly one enumeration call, invokes the item synchronizer zero times,
and returns the pass start time as watermark. -/
theorem c7_empty_pass (env : SyncEnv) (wm : DateTime) (tok : PyStr)
    (ha : env.authResult = .ok tok)
    (hp : pageAt env 0 = .ok ⟨[], none⟩) :
    sync env wm = .ok ⟨env.startTime, none, 1, []⟩ := by
  have hloop : syncLoop env 1000 0 0 wm = ⟨wm, 1, [], none⟩ := by
    rw [show (1000 : Nat) = 999 + 1 from rfl]
    rw [syncLoop_page_last 999 0 wm hp rfl rfl]
    rfl
  rw [sync_ok_of_auth ha, hloop]
  simp

/-- Witness for C7 at the concrete empty-page environment. -/
theorem c7_witness : sync envEmpty dt2008 = .ok ⟨startT, none, 1, []⟩ :=
  c7_empty_pass envEmpty dt2008 sampleTok rfl rfl

/-! Claim C8. -/

/-- Claim C8, counterexample: loading a checkpoint file whose last line is
not a parsable timestamp raises ValueError instead of never failing. -/
theorem c8_counterexample :
    get_last_update_time (some ["garbage".data]) = .error ⟨"ValueError".data⟩ := by
  decide

/-- Claim C8 (amended): loading returns the watermark parsed from the last
line when the file exists, is non-empty and that line parses; it returns
the fixed default datetime(2008, 1, 1) when the file is missing or empty;
but when the last line does not parse, loading raises ValueError
(contrary to the claim that loading never raises). -/
theorem c8_load_checkpoint (lines : List PyStr) (line : PyStr) (d : DateTime) :
    get_last_update_time none = .ok dt2008 ∧
    get_last_update_time (some []) = .ok dt2008 ∧
    (lines.getLast? = some line → fromisoformat (pyStrip line) = some d →
      get_last_update_time (some lines) = .ok d) ∧
    (lines.getLast? = some line → fromisoformat (pyStrip line) = none →
      get_last_update_time (some lines) = .error ⟨"ValueError".data⟩) := by
  refine ⟨rfl, rfl, ?_, ?_⟩
  · intro h1 h2
    simp only [get_last_update_time, h1, h2]
  · intro h1 h2
    simp only [get_last_update_time, h1, h2]

/-- Witness for C8 on concrete file states. -/
theorem c8_witness :
    get_last_update_time none = .ok dt2008 ∧
    get_last_update_time (some []) = .ok dt2008 ∧
    get_last_update_time (some ["2021-06-15T12:30:45".data])
      = .ok ⟨2021, 6, 15, 12, 30, 45, 0⟩ ∧
    get_last_update_time (some ["garbage".data]) = .error ⟨"ValueError".data⟩ := by
  obtain ⟨h1, h2, h3, _⟩ := c8_load_checkpoint ["2021-06-15T12:30:45".data]
    ("2021-06-15T12:30:45".data) ⟨2021, 6, 15, 12, 30, 45, 0⟩
  obtain ⟨_, _, _, h4⟩ := c8_load_checkpoint ["garbage".data] ("garbage".data) dt2008
  exact ⟨h1, h2, h3 rfl (by decide), h4 rfl (by decide)⟩

/-! Claim C9. -/

/-- Claim C9 (confirmed): for every valid watermark and every prior file
contents, saving appends exactly one line — the watermark's isoformat text
(the line terminator being the line separation of the file model) —
leaving all previously stored lines unchanged, and a subsequent load
parses that authoritative last line back to exactly the saved watermark. -/
theorem c9_save_then_load (file : List PyStr) (wm : DateTime) (h : dtValid wm) :
    save_last_update_time wm file = file ++ [wm.isoformat] ∧
    get_last_update_time (some (save_last_update_time wm file)) = .ok wm := by
  refine ⟨rfl, ?_⟩
  simp only [get_last_update_time, save_last_update_time, List.getLast?_concat,
    pyStrip_isoformat, fromisoformat_isoformat wm h]

/-- Witness for C9 with a microsecond-carrying watermark over a non-empty
file. -/
theorem c9_witness :
    save_last_update_time ⟨2021, 6, 15, 12, 30, 45, 123456⟩ ["2020-01-01T00:00:00".data]
      = ["2020-01-01T00:00:00".data] ++ [DateTime.isoformat ⟨2021, 6, 15, 12, 30, 45, 123456⟩] ∧
    get_last_update_time (some (save_last_update_time ⟨2021, 6, 15, 12, 30, 45, 123456⟩
      ["2020-01-01T00:00:00".data])) = .ok ⟨2021, 6, 15, 12, 30, 45, 123456⟩ :=
  c9_save_then_load ["2020-01-01T00:00:00".data] ⟨2021, 6, 15, 12, 30, 45, 123456⟩ (by decide)

/-! Claim C10. -/

/-- Claim C10 (confirmed): a record whose UpdateTime is the isoformat text
of a change time d is applied with candidate watermark equal to d with
its fractional-second part discarded — truncated, not rounded — so the
watermark returned after the next item's failure has whole-second
resolution and is never later than the source-reported change time. -/
theorem c10_truncated_watermark (env : SyncEnv) (wm d : DateTime) (a b : Update)
    (nt : Option PyStr) (e : Exc) (tok : PyStr) (tb : DateTime)
    (ha : env.authResult = .ok tok)
    (hd : dtValid d)
    (hp : pageAt env 0 = .ok ⟨[a, b], nt⟩)
    (hfa : a.updateTime = d.isoformat)
    (htb : parseUpdateTime b.updateTime = some tb)
    (hi0 : env.itemResult 0 = .ok ())
    (hi1 : env.itemResult 1 = .error e) :
    sync env wm = .ok ⟨⟨d.year, d.month, d.day, d.hour, d.minute, d.second, 0⟩, some e, 1,
      [a.videoId]⟩ ∧
    (⟨d.year, d.month, d.day, d.hour, d.minute, d.second, 0⟩ : DateTime).microsecond = 0 ∧
    dtle ⟨d.year, d.month, d.day, d.hour, d.minute, d.second, 0⟩ d := by
  have hpa : parseUpdateTime a.updateTime
      = some ⟨d.year, d.month, d.day, d.hour, d.minute, d.second, 0⟩ := by
    rw [hfa]
    exact parseUpdateTime_isoformat d hd
  have happ := applyUpdates_prefix_fail env [] a b [] 0 wm
    ⟨d.year, d.month, d.day, d.hour, d.minute, d.second, 0⟩ e (by simp)
    (fun j hj => by
      have hj0 : j = 0 := by simpa using hj
      subst hj0
      simpa using hi0)
    hpa ⟨tb, htb⟩ (by simpa using hi1)
  simp only [List.nil_append, List.length_nil, List.map_cons, List.map_nil,
    Nat.add_zero, Nat.zero_add] at happ
  have hloop : syncLoop env 1000 0 0 wm =
      ⟨⟨d.year, d.month, d.day, d.hour, d.minute, d.second, 0⟩, 1, [a.videoId], some e⟩ := by
    rw [show (1000 : Nat) = 999 + 1 from rfl]
    rw [syncLoop_page_fail 999 0 wm hp (by dsimp only; rw [happ])]
    dsimp only
    rw [happ]
  refine ⟨?_, rfl, key_trunc_le d⟩
  rw [sync_ok_of_auth ha, hloop]
  simp

/-- Update record carrying a fractional-second UpdateTime. -/
def updFrac : Update := ⟨"f".data, DateTime.isoformat ⟨2021, 6, 15, 12, 30, 45, 123456⟩⟩

/-- updFrac applies, then updB's synchronization fails. -/
def envTrunc : SyncEnv :=
  ⟨.ok sampleTok, [.ok ⟨[updFrac, updB], none⟩],
    fun k => if k = 0 then .ok () else .error ⟨"push".data⟩, startT⟩

/-- Witness for C10: the fractional UpdateTime is truncated to whole
seconds in the returned watermark. -/
theorem c10_witness :
    sync envTrunc dt2008 = .ok ⟨⟨2021, 6, 15, 12, 30, 45, 0⟩, some ⟨"push".data⟩, 1,
      [updFrac.videoId]⟩ ∧
    (⟨2021, 6, 15, 12, 30, 45, 0⟩ : DateTime).microsecond = 0 ∧
    dtle ⟨2021, 6, 15, 12, 30, 45, 0⟩ ⟨2021, 6, 15, 12, 30, 45, 123456⟩ :=
  c10_truncated_watermark envTrunc dt2008 ⟨2021, 6, 15, 12, 30, 45, 123456⟩ updFrac updB
    none ⟨"push".data⟩ sampleTok tB rfl (by decide) rfl rfl (by decide) rfl rfl

end PanoptoConnector
